import Mathlib

/-!
Verification development for the Lunaboxd scraper core.

The definitions below are a shallow embedding of the Python source under
`src/`: `session.py` (response classification, session loading, the
`save_session` decorator, the overloaded `request` method), `find.py`
(search pagination), `member.py` (sentinel-link pagination), `film.py`
(rating aggregation), `util.py` (`key_max`) and `letterboxd.py`
(star-rating conversions).  Pure Python functions become Lean functions;
exceptions become `Except`; Python dictionaries become association lists
or lookup functions as noted at each definition.
-/

set_option maxHeartbeats 1000000

namespace Lunaboxd

/-- Truthiness of an optional string field of the response dictionary, as Python
evaluates `self.error`: an absent key (`None`) and the empty string are falsy,
every other string is truthy. -/
def optStrTruthy : Option String → Bool
  | none => false
  | some s => s != ""

/-- Membership of a string result in `LetterboxdResponseDict.successful_result`,
which is the tuple `(True, 'success')` in `session.py`: a string belongs to that
tuple exactly when it equals `"success"`. -/
def result_in_successful (r : String) : Bool :=
  r == "success"

/-- Data carried by `LetterboxdResponseDict` (src/session.py): the transport
status of the underlying `requests.Response` (`response.ok`) together with the
site-payload fields `result`, `messages` and `error` that
`get_letterboxd_response_dict` stores in the dictionary.  An `Option` value of
`none` models an absent dictionary key / Python `None`. -/
structure LetterboxdResponseDict where
  transport_ok : Bool
  result : Option String
  messages : List String
  error : Option String
deriving DecidableEq, Repr

/-- Embeds `LetterboxdResponseDict.ok` (session.py lines 160-167): `False` when
the transport status is not ok; `False` when a result is present and is not in
the success tuple; otherwise `not self.error`. -/
def LetterboxdResponseDict.ok (d : LetterboxdResponseDict) : Bool :=
  if !d.transport_ok then
    false
  else if (match d.result with
           | some r => !result_in_successful r
           | none => false) then
    false
  else
    !optStrTruthy d.error

/-- Embeds `has_response_dict` (session.py lines 140-143): `any(self.values())`,
i.e. some dictionary value is truthy.  The dictionary holds the `result` and
`messages` values taken from the JSON payload plus the `error` value. -/
def LetterboxdResponseDict.has_response_dict (d : LetterboxdResponseDict) : Bool :=
  optStrTruthy d.result || !d.messages.isEmpty || optStrTruthy d.error

/-- Outcome of `LetterboxdResponseDict.raise_errors`: either it returns without
raising, or it raises one of the exceptions from `exceptions.py`, or it falls
back on `response.raise_for_status()` which raises an `HTTPError` for an error
transport status. -/
inductive RaiseOutcome where
  | noError
  | pageNotFound
  | pageForbidden
  | letterboxdError
  | httpError
deriving DecidableEq, Repr

/-- Embeds `raise_errors` (session.py lines 169-187): nothing is raised when
`self.ok`; otherwise, when the response dictionary is truthy, the raised
exception is selected by matching `self.error` (`not_found`, `forbidden`,
default `LetterboxdError`); with no response dictionary the method falls back
on `raise_for_status`, which raises exactly when the transport status is an
error status. -/
def LetterboxdResponseDict.raise_errors (d : LetterboxdResponseDict) : RaiseOutcome :=
  if d.ok then
    .noError
  else if d.has_response_dict then
    match d.error with
    | some "not_found" => .pageNotFound
    | some "forbidden" => .pageForbidden
    | _ => .letterboxdError
  else if !d.transport_ok then
    .httpError
  else
    .noError

/-- The structured JSON payload of a response body, when `json.loads` succeeds
on the text: the fields `get_letterboxd_response_dict` reads out of it. -/
structure JsonPayload where
  result : Option String
  messages : List String
  error : Option String
deriving DecidableEq, Repr

/-- Embeds `_get_letterboxd_errors` (session.py lines 201-217).  When the parsed
document has no `body` tag of class `error` the method returns `None`.
Otherwise it evaluates `self.soup.find_all('script')`, but the instance has no
attribute `soup` (the parsed document is only the local parameter), so an
`AttributeError` is raised before any error string can be returned; the
`Except` error branch models that exception. -/
def scrape_markup_error (body_has_error_class : Bool) : Except Unit (Option String) :=
  if !body_has_error_class then
    .ok none
  else
    .error ()

/-- Embeds `get_letterboxd_response_dict` (session.py lines 189-199): the
dictionary is seeded from the JSON payload when the body parses as JSON (and
carries a `result` key), and then its `error` entry is unconditionally
overwritten with the markup-scan result, discarding any `error` value the JSON
payload carried. -/
def get_letterboxd_response_dict (transport_ok : Bool) (parsed : Option JsonPayload)
    (body_has_error_class : Bool) : Except Unit LetterboxdResponseDict :=
  match scrape_markup_error body_has_error_class with
  | .error e => .error e
  | .ok scraped =>
    match parsed with
    | some p => .ok ⟨transport_ok, p.result, p.messages, scraped⟩
    | none => .ok ⟨transport_ok, none, [], scraped⟩

/-- Classification step of the overloaded `request` (session.py line 437):
constructing `LetterboxdResponseDict(response)` calls `raise_errors`, so the
call either returns the classified response or propagates the raised error. -/
def classify_and_attach (d : LetterboxdResponseDict) :
    Except RaiseOutcome LetterboxdResponseDict :=
  match d.raise_errors with
  | .noError => .ok d
  | e => .error e

/-- Embeds the `save_session` decorator (session.py lines 222-233): `inner`
first executes the wrapped function, then calls `self.save()`, then returns the
result.  The boolean records whether `save` ran: an exception raised by the
wrapped function propagates before the save statement is reached. -/
def save_session {α β : Type} (func : α → Except RaiseOutcome β) (x : α) :
    Except RaiseOutcome β × Bool :=
  match func x with
  | .ok r => (.ok r, true)
  | .error e => (.error e, false)

/-- The classification-and-persistence behaviour of the decorated `request`
method (session.py lines 414-440) on an already-received response: classify it
via `LetterboxdResponseDict`, and persist the session only per `save_session`. -/
def request_classified (d : LetterboxdResponseDict) :
    Except RaiseOutcome LetterboxdResponseDict × Bool :=
  save_session classify_and_attach d

/-- Starting condition of the session cache file read by `LunaboxdSession.load`
(session.py lines 342-377): the pickle file can be absent, can fail to
unpickle, or can deserialize to a session whose `logged_in_check` result and
whose file freshness (written within the last hour) are as recorded. -/
inductive CacheState where
  | absent
  | corrupt
  | present (logged_in : Bool) (fresh_within_hour : Bool)
deriving DecidableEq, Repr

/-- Result of `LunaboxdSession.load`: the unpickling exception propagates (the
bare `except: raise` branch), or a fresh session is built by calling `cls()`,
or the unpickled session is returned. -/
inductive LoadOutcome where
  | raised
  | rebuilt
  | restored
deriving DecidableEq, Repr

/-- Steps performed by `LunaboxdSession.__init__` (session.py lines 302-326)
when a fresh session is built. -/
inductive InitStep where
  | updateHeaders
  | getCredentials
  | baselineGet
  | login
deriving DecidableEq, Repr

/-- The ordered steps of `LunaboxdSession.__init__`: update the user-agent
header, read credentials, issue the baseline cookie-acquiring GET, then log
in. -/
def init_steps : List InitStep :=
  [.updateHeaders, .getCredentials, .baselineGet, .login]

/-- Embeds `LunaboxdSession.load` (session.py lines 342-377): a missing cache
file builds a fresh session; any other unpickling failure re-raises; an
unpickled session that is not logged in or whose file was not updated within
the last hour is discarded for a fresh session; otherwise the unpickled
session is returned. -/
def load : CacheState → LoadOutcome
  | .absent => .rebuilt
  | .corrupt => .raised
  | .present logged_in fresh_within_hour =>
    if !logged_in || !fresh_within_hour then .rebuilt else .restored

/-- Records-per-page constant `Find.RESULTS_PER_PAGE` (find.py line 41). -/
def RESULTS_PER_PAGE : Nat := 20

/-- A search source for `Find._get_results`, abstracting the network and the
markup: the last page number that `letterboxd.get_last_page` reads off the
first response (always at least 1), and the records the per-category scraper
extracts from each page's response.  Pages are numbered from 1. -/
structure FindSource (α : Type) where
  lastPage : Nat
  pageRecords : Nat → List α

/-- Concatenation of the records of pages `1..n` in ascending page order, as
accumulated by `results.extend(results_on_page)` in the fetch loop. -/
def pagesConcat {α : Type} (f : Nat → List α) : Nat → List α
  | 0 => []
  | n + 1 => pagesConcat f n ++ f (n + 1)

/-- The page the fetch loop of `Find._get_results` stops at (find.py lines
68-73): `min(get_last_page(soup), ceil(limit / RESULTS_PER_PAGE))` when `limit`
is truthy (neither `None` nor `0`), else `get_last_page(soup)`.  The ceiling is
written `(l + RESULTS_PER_PAGE - 1) / RESULTS_PER_PAGE` in natural-number
arithmetic. -/
def page_stop {α : Type} (src : FindSource α) (limit : Option Nat) : Nat :=
  match limit with
  | some l =>
    if l ≠ 0 then
      min src.lastPage ((l + RESULTS_PER_PAGE - 1) / RESULTS_PER_PAGE)
    else
      src.lastPage
  | none => src.lastPage

/-- Embeds `Find._get_results` (find.py lines 56-100) for a source that has
results.  The loop scrapes pages `1`, `2`, ... until `page_current ==
page_stop`, extending `results` with each page, and finally returns
`results[:limit] if limit else results`.  The second component counts the
requests issued: the initial `_get_soup` request plus one request per further
page, i.e. exactly `page_stop` requests (the loop terminates this way because
`page_stop ≥ 1` whenever `lastPage ≥ 1`). -/
def get_results {α : Type} (src : FindSource α) (limit : Option Nat) :
    List α × Nat :=
  let stop := page_stop src limit
  let results := pagesConcat src.pageRecords stop
  (match limit with
   | some l => if l ≠ 0 then results.take l else results
   | none => results,
   stop)

/-- A relationship-listing source for `UserInfo._get_people` (member.py lines
221-247): the usernames scraped from each page, and whether the page's markup
contains an `a` tag of class `next`. -/
structure PeopleSource where
  pagePeople : Nat → List String
  has_next : Nat → Bool

/-- Concatenation of the records of the `n` pages `a, a+1, ..., a+n-1` in
ascending page order. -/
def pagesFrom {α : Type} (f : Nat → List α) (a : Nat) : Nat → List α
  | 0 => []
  | n + 1 => f a ++ pagesFrom f (a + 1) n

/-- Embeds the loop of `UserInfo._get_people` (member.py lines 235-247),
starting at the given page: scrape the page, extend `results`, stop if the
page has no `next` control, otherwise continue with `page_num + 1`.  The
`fuel` argument bounds the number of iterations so the translation is total;
with enough fuel it computes exactly what the Python `while True` loop
returns. -/
def get_people (src : PeopleSource) : Nat → Nat → List String
  | 0, _ => []
  | fuel + 1, page =>
    src.pagePeople page ++
      (if src.has_next page then get_people src fuel (page + 1) else [])

/-- The histogram keys of `Film.ratings` (film.py line 572): the dictionary is
built over `int(k*2)` for `k` in `RATINGS_RANGE`, i.e. the keys `1..10` in
ascending insertion order, with count 0 for scores that received no rating. -/
def RATING_KEYS : List Nat := [1, 2, 3, 4, 5, 6, 7, 8, 9, 10]

/-- Embeds `Film.ratings_number_of` (film.py lines 575-578):
`sum(self.ratings.values())` over the keys `1..10`. -/
def ratings_number_of (h : Nat → Nat) : Nat :=
  (RATING_KEYS.map h).sum

/-- Embeds `Film._ratings_total_score` (film.py lines 580-585): `0` when there
are no ratings, else `sum(s*q for s, q in self.ratings.items())`. -/
def ratings_total_score (h : Nat → Nat) : Nat :=
  if ratings_number_of h = 0 then 0
  else (RATING_KEYS.map (fun s => s * h s)).sum

/-- Embeds `Film.rating_true` (film.py lines 601-607): `None` when the film has
received no ratings, else `(self._ratings_total_score / rat_num) * 0.5`. -/
def rating_true (h : Nat → Nat) : Option ℚ :=
  if ratings_number_of h = 0 then none
  else some (((ratings_total_score h : ℚ) / (ratings_number_of h : ℚ)) * (1 / 2))

/-- Strict order on `(value, key)` pairs: the lexicographic comparison Python's
`max` performs on the tuples of `zip(d.values(), d.keys())` in `util.key_max`
(util.py lines 113-138). -/
def lexLt (a b : Nat × Nat) : Prop :=
  a.1 < b.1 ∨ (a.1 = b.1 ∧ a.2 < b.2)

instance instDecidableLexLt (a b : Nat × Nat) : Decidable (lexLt a b) :=
  inferInstanceAs (Decidable (_ ∨ _))

/-- One comparison step of Python's `max`: the running best is replaced exactly
when the candidate compares strictly greater. -/
def pairMax (a b : Nat × Nat) : Nat × Nat :=
  if lexLt a b then b else a

/-- The fold computing `max(zip(d.values(), d.keys()))` over the keys `ks`,
starting from the pair of an initial key. -/
def key_max_fold (h : Nat → Nat) (init : Nat × Nat) (ks : List Nat) : Nat × Nat :=
  ks.foldl (fun acc k => pairMax acc (h k, k)) init

/-- Embeds `util.key_max(d, max_num=1)`: the key of the maximal
`(value, key)` pair of the dictionary, whose keys are listed in insertion
order.  Python's `max` raises on an empty sequence; the `[]` case is
unreachable for the histograms this is applied to. -/
def key_max1 (h : Nat → Nat) : List Nat → Nat
  | [] => 0
  | k :: ks => (key_max_fold h (h k, k) ks).2

/-- Embeds `util.key_max(d, max_num=2)`: take the maximal key, `d.pop` it, and
return the maximal key of the remaining dictionary. -/
def key_max2 (h : Nat → Nat) (keys : List Nat) : Nat :=
  key_max1 h (keys.erase (key_max1 h keys))

/-- Embeds `Film.rating_ironic` (film.py lines 628-641) over the full histogram
`Film.ratings` (keys `1..10` in insertion order): true iff the sorted pair of
`key_max(ratings)` and `key_max(ratings, 2)` is `[1, 10]` and both extreme
scores have at least `minimum_number_of_ratings = 3` ratings. -/
def rating_ironic (h : Nat → Nat) : Bool :=
  let m1 := key_max1 h RATING_KEYS
  let m2 := key_max2 h RATING_KEYS
  decide ((if m1 ≤ m2 then [m1, m2] else [m2, m1]) = [1, 10]) &&
    decide (3 ≤ h 1) && decide (3 ≤ h 10)

/-- Python's `d[n]` on a dictionary modelled as an association list: the first
binding of the key, or a `KeyError` when the key is absent. -/
def dict_getitem (d : List (Nat × Nat)) (n : Nat) : Except Unit Nat :=
  match d.lookup n with
  | some v => .ok v
  | none => .error ()

/-- Left-to-right sum of fallible summands, as Python evaluates
`sum([d[n] * ... for n in range(1, 11)])`: the first `KeyError` aborts the
whole computation. -/
def sumExcept (f : Nat → Except Unit ℚ) : List Nat → Except Unit ℚ
  | [] => .ok 0
  | n :: ns =>
    match f n with
    | .error e => .error e
    | .ok x =>
      match sumExcept f ns with
      | .error e => .error e
      | .ok s => .ok (x + s)

/-- Embeds `Film._get_bayesian_average` (film.py lines 645-656), with the dict
as an association list.  `ppf` abstracts the external numeric collaborator
`scipy.stats.beta.ppf(0.05, ·, ·)`, applied to `up + a0` and `down + a0`; the
result is rescaled by `* 4.5 + 0.5`.  An empty or all-zero dictionary returns
the fallback; otherwise the sums index the keys `1..10` with `d[n]`, so a
missing key raises `KeyError`. -/
def get_bayesian_average (ppf : ℚ → ℚ → ℚ) (d : List (Nat × Nat))
    (no_rating_fallback : Option ℚ) (a0 : ℚ) : Except Unit (Option ℚ) :=
  if d.isEmpty || !(d.any fun p => p.2 != 0) then
    .ok no_rating_fallback
  else
    match sumExcept (fun n =>
        match dict_getitem d n with
        | .ok v => .ok ((v : ℚ) * (((n : ℚ) - 1) / 9))
        | .error e => .error e) RATING_KEYS with
    | .error e => .error e
    | .ok up =>
      match sumExcept (fun n =>
          match dict_getitem d n with
          | .ok v => .ok ((v : ℚ) * ((9 - ((n : ℚ) - 1)) / 9))
          | .error e => .error e) RATING_KEYS with
      | .error e => .error e
      | .ok down => .ok (some (ppf (up + a0) (down + a0) * (9 / 2) + 1 / 2))

/-- The full-star character `letterboxd.RATING_STAR`. -/
def RATING_STAR : Char := '★'

/-- The half-star character `letterboxd.RATING_HALF`. -/
def RATING_HALF : Char := '½'

/-- The special single-half-star form `letterboxd.RATING_HALF_ONLY`. -/
def RATING_HALF_ONLY : String := "half-★"

/-- Python's `int()` truncation toward zero on an exact rational. -/
def pyInt (q : ℚ) : Int :=
  if 0 ≤ q then ⌊q⌋ else -⌊-q⌋

/-- Embeds `letterboxd.num_to_star_rating` (letterboxd.py lines 87-99): `0.5`
maps to the special `half-★` form; otherwise `num_int = int(num*2)` must lie in
`range(1, 11)` or a `ValueError` is raised, and the string is
`'★' * (num_int // 2) + '½' * (num_int % 2)` via `divmod`. -/
def num_to_star_rating (num : ℚ) : Except Unit String :=
  if num = 1 / 2 then
    .ok RATING_HALF_ONLY
  else
    let num_int : Int := pyInt (num * 2)
    if 1 ≤ num_int ∧ num_int ≤ 10 then
      .ok (String.mk (List.replicate (num_int.toNat / 2) RATING_STAR ++
        List.replicate (num_int.toNat % 2) RATING_HALF))
    else
      .error ()

/-- Python's `str.strip()`: whitespace removed from both ends. -/
def pyStrip (s : List Char) : List Char :=
  ((s.dropWhile Char.isWhitespace).reverse.dropWhile Char.isWhitespace).reverse

/-- Embeds `letterboxd.star_rating_to_num` (letterboxd.py lines 102-115): the
`half-★` form maps to `0.5`; otherwise the stripped string may contain only
star and half-star characters (else `ValueError`), the value is
`count('★') + 0.5 * count('½')`, and `result * 2` must be an integer in
`range(1, 11)` (else `ValueError`). -/
def star_rating_to_num (s : String) : Except Unit ℚ :=
  if s = RATING_HALF_ONLY then
    .ok (1 / 2)
  else
    let cs := pyStrip s.toList
    if cs.any (fun c => c != RATING_STAR && c != RATING_HALF) then
      .error ()
    else
      let result : ℚ := (cs.count RATING_STAR : ℚ) + (1 / 2) * (cs.count RATING_HALF : ℚ)
      if (result * 2).den = 1 ∧ 1 ≤ (result * 2).num ∧ (result * 2).num ≤ 10 then
        .ok result
      else
        .error ()

/-- The base origin `LunaboxdSession.URL_MAIN` as a character list. -/
def URL_MAIN : List Char := "https://letterboxd.com/".toList

/-- Python's `str.replace(pat, rep)` on character lists: scan left to right,
replacing each non-overlapping occurrence of `pat` (assumed nonempty at use
sites) by `rep`. -/
def pyReplace (pat rep : List Char) : List Char → List Char
  | [] => []
  | c :: cs =>
    if h : pat ≠ [] ∧ pat.isPrefixOf (c :: cs) = true then
      rep ++ pyReplace pat rep ((c :: cs).drop pat.length)
    else
      c :: pyReplace pat rep cs
termination_by s => s.length
decreasing_by
  all_goals simp only [List.length_drop, List.length_cons]
  · have hp : 0 < pat.length := List.length_pos.mpr h.1
    omega
  · omega

/-- URL resolution of the overloaded `request` (session.py lines 429-433):
`suburl = suburl.replace(URL_MAIN, '')` followed by
`url = f"{URL_MAIN}{suburl}"`. -/
def resolve_url (suburl : List Char) : List Char :=
  URL_MAIN ++ pyReplace URL_MAIN [] suburl

/-- Embeds the `csrf_token` property (session.py lines 399-407): the dictionary
`{'__csrf': self.cookies.get(cookie_name_csrf)}`, whose single value is the
cookie value or `None` when the cookie is absent. -/
def csrf_token (csrf_cookie : Option String) : List (String × Option String) :=
  [("__csrf", csrf_cookie)]

/-- Python's dictionary merge `a | b`: the keys of `a` in order (with `b`'s
value on a shared key) followed by the keys only in `b`. -/
def pyDictOr (a b : List (String × Option String)) : List (String × Option String) :=
  a.map (fun p =>
    (p.1, match b.find? (fun q => q.1 == p.1) with
          | some q => q.2
          | none => p.2)) ++
    b.filter (fun q => (a.find? (fun p => p.1 == q.1)).isNone)

/-- Embeds `LunaboxdSession._make_data` (session.py lines 409-412): return
`data` unchanged when `self.csrf_token` is falsy, else `self.csrf_token | data`.
The token dictionary always holds the `__csrf` key, so it is never falsy. -/
def make_data (csrf_cookie : Option String) (data : List (String × Option String)) :
    List (String × Option String) :=
  if (csrf_token csrf_cookie).isEmpty then data
  else pyDictOr (csrf_token csrf_cookie) data

/-- First binding of a key in an outgoing-data dictionary, distinguishing an
absent key (`none`) from a key bound to Python `None` (`some none`). -/
def dictLookup (d : List (String × Option String)) (k : String) : Option (Option String) :=
  (d.find? (fun p => p.1 == k)).map (fun p => p.2)

/-! ### Claim C1 -/

/-- Claim C1, counterexample.  A response with successful transport status
(HTTP 200) whose body is exactly the JSON payload
`{"result": "error", "error": "forbidden"}` (so the parsed document has no
error-classed body tag) is classified as failed, but `raise_errors` raises the
generic `LetterboxdError`, not `PageForbiddenError`: the constructor overwrites
the payload's `error` entry with the result of the markup scan, which is
`None` here. -/
theorem c1_counterexample :
    get_letterboxd_response_dict true (some ⟨some "error", [], some "forbidden"⟩) false =
      .ok ⟨true, some "error", [], none⟩ ∧
    LetterboxdResponseDict.ok ⟨true, some "error", [], none⟩ = false ∧
    LetterboxdResponseDict.raise_errors ⟨true, some "error", [], none⟩ =
      .letterboxdError ∧
    RaiseOutcome.letterboxdError ≠ RaiseOutcome.pageForbidden :=
  ⟨rfl, rfl, rfl, by decide⟩

/-- Claim C1, amended.  If the classified response carries a site-reported
error code (a non-empty `error` value) then it is never classified successful,
regardless of transport status; and `raise_errors` raises `PageForbiddenError`
exactly from a failed response whose classified `error` value is `"forbidden"`.
A JSON payload's own `error` entry, however, never reaches the classified
response (see `c1_counterexample`). -/
theorem c1_error_never_ok :
    (∀ (d : LetterboxdResponseDict) (e : String), d.error = some e → e ≠ "" →
      d.ok = false) ∧
    (∀ d : LetterboxdResponseDict, d.ok = false → d.has_response_dict = true →
      d.error = some "forbidden" → d.raise_errors = .pageForbidden) := by
  constructor
  · intro d e he hne
    unfold LetterboxdResponseDict.ok
    rw [he]
    have : optStrTruthy (some e) = true := by
      simp [optStrTruthy, hne]
    split_ifs <;> simp [this]
  · intro d hok hdict herr
    unfold LetterboxdResponseDict.raise_errors
    rw [hok, herr, hdict]
    rfl

/-- Witness for `c1_error_never_ok` at the concrete response carrying a
markup-scraped `forbidden` error code over HTTP 200 transport. -/
theorem c1_error_never_ok_witness :
    LetterboxdResponseDict.ok ⟨true, none, [], some "forbidden"⟩ = false ∧
    LetterboxdResponseDict.raise_errors ⟨true, none, [], some "forbidden"⟩ =
      .pageForbidden :=
  ⟨c1_error_never_ok.1 ⟨true, none, [], some "forbidden"⟩ "forbidden" rfl (by decide),
   c1_error_never_ok.2 ⟨true, none, [], some "forbidden"⟩ (by decide) (by decide) rfl⟩

/-! ### Claim C3 -/

/-- Claim C3, counterexample.  A cache file that is present but fails to
deserialize makes `load` re-raise the unpickling error (the bare
`except: raise` branch) instead of discarding the cache and building a fresh
session. -/
theorem c3_counterexample :
    load .corrupt = .raised ∧ LoadOutcome.raised ≠ LoadOutcome.rebuilt := by
  exact ⟨rfl, by decide⟩

/-- Claim C3, amended.  `load` discards an absent cache, or a deserialized
session that is not verified logged-in or whose file is stale (not written
within the last hour), and builds a fresh session via `__init__`, whose step
sequence performs the baseline cookie-acquiring GET before the login; the
restored session is returned only when the cache is present, intact, verified
and fresh.  A corrupt cache, however, is not self-healed: the deserialization
error propagates. -/
theorem c3_load_behavior :
    load .absent = .rebuilt ∧
    load .corrupt = .raised ∧
    (∀ logged_in fresh : Bool,
      load (.present logged_in fresh) =
        if logged_in && fresh then .restored else .rebuilt) ∧
    InitStep.baselineGet ∈ init_steps ∧
    InitStep.login ∈ init_steps ∧
    init_steps.indexOf InitStep.baselineGet < init_steps.indexOf InitStep.login := by
  refine ⟨rfl, rfl, ?_, by decide, by decide, by decide⟩
  intro logged_in fresh
  cases logged_in <;> cases fresh <;> rfl

/-! ### Claim C4 -/

/-- Claim C4, counterexample.  A request whose classification raises (here a
failed response with a truthy response dictionary and no recognised error
code) propagates the exception before the `self.save()` statement of the
`save_session` decorator is reached, so the session state is not persisted for
that call. -/
theorem c4_counterexample :
    (request_classified ⟨true, some "error", [], none⟩).2 = false ∧
    (request_classified ⟨true, some "error", [], none⟩).1 =
      .error .letterboxdError :=
  ⟨rfl, rfl⟩

/-- Claim C4, amended.  The decorated `request` persists the session state
exactly when the wrapped call returns: a successfully classified response is
returned with the state saved, while a classification error propagates with no
save performed. -/
theorem c4_save_only_on_return :
    (∀ d : LetterboxdResponseDict, d.ok = true →
      request_classified d = (.ok d, true)) ∧
    (∀ d : LetterboxdResponseDict, d.raise_errors ≠ .noError →
      request_classified d = (.error d.raise_errors, false)) := by
  constructor
  · intro d hok
    have hr : d.raise_errors = .noError := by
      unfold LetterboxdResponseDict.raise_errors
      rw [hok]
      rfl
    simp [request_classified, save_session, classify_and_attach, hr]
  · intro d hr
    cases he : d.raise_errors with
    | noError => exact absurd he hr
    | pageNotFound => simp [request_classified, save_session, classify_and_attach, he]
    | pageForbidden => simp [request_classified, save_session, classify_and_attach, he]
    | letterboxdError => simp [request_classified, save_session, classify_and_attach, he]
    | httpError => simp [request_classified, save_session, classify_and_attach, he]

/-- Witness for `c4_save_only_on_return`: a cleanly successful response is
returned with the state saved, and the failed response of `c4_counterexample`
propagates its error unsaved. -/
theorem c4_save_only_on_return_witness :
    request_classified ⟨true, some "success", [], none⟩ =
      (.ok ⟨true, some "success", [], none⟩, true) ∧
    request_classified ⟨false, none, [], none⟩ = (.error .httpError, false) :=
  ⟨c4_save_only_on_return.1 ⟨true, some "success", [], none⟩ (by decide),
   by
    have := c4_save_only_on_return.2 ⟨false, none, [], none⟩ (by decide)
    simpa using this⟩

/-! ### Claim C7 -/

/-- The histogram `{10: 1}` of the spec's example, completed with explicit zero
counts as `Film.ratings` builds it: a single rating of 5.0 stars. -/
def histTen : Nat → Nat := fun s => if s = 10 then 1 else 0

/-- Claim C7, confirmed.  `rating_true` is `None` (no data, not zero) exactly
when the total rating count is zero; otherwise it equals the total score
divided by the count, halved; and the histogram with a single rating at score
10 has true mean exactly 5. -/
theorem c7_true_mean :
    (∀ h : Nat → Nat, ratings_number_of h = 0 → rating_true h = none) ∧
    (∀ h : Nat → Nat, ratings_number_of h ≠ 0 →
      rating_true h =
        some ((((RATING_KEYS.map (fun s => s * h s)).sum : ℚ) /
          (ratings_number_of h : ℚ)) * (1 / 2))) ∧
    rating_true histTen = some 5 := by
  refine ⟨?_, ?_, ?_⟩
  · intro h h0
    simp [rating_true, h0]
  · intro h h0
    simp [rating_true, ratings_total_score, h0]
  · norm_num [rating_true, ratings_number_of, ratings_total_score, RATING_KEYS, histTen]

/-- Witness for `c7_true_mean` at the all-zero histogram and at the
single-rating histogram `{10: 1}`. -/
theorem c7_true_mean_witness :
    rating_true (fun _ => 0) = none ∧
    rating_true histTen =
      some ((((RATING_KEYS.map (fun s => s * histTen s)).sum : ℚ) /
        (ratings_number_of histTen : ℚ)) * (1 / 2)) :=
  ⟨c7_true_mean.1 (fun _ => 0) (by decide),
   c7_true_mean.2.1 histTen (by decide)⟩

/-! ### Claim C2 -/

/-- A source whose pages `1..n` all hold `c` records yields `n * c` records in
total. -/
theorem pagesConcat_length {α : Type} (f : Nat → List α) (c : Nat) :
    ∀ n : Nat, (∀ p, 1 ≤ p → p ≤ n → (f p).length = c) →
      (pagesConcat f n).length = n * c := by
  intro n
  induction n with
  | zero => intro _; simp [pagesConcat]
  | succ n ih =>
    intro huni
    have hn : (pagesConcat f n).length = n * c :=
      ih fun p h1 h2 => huni p h1 (Nat.le_succ_of_le h2)
    have hc : (f (n + 1)).length = c := huni (n + 1) (Nat.succ_le_succ (Nat.zero_le n)) le_rfl
    simp [pagesConcat, hn, hc, Nat.succ_mul]

/-- The concatenation of pages `1..stop` is an initial segment of the
concatenation of pages `1..P` whenever `stop ≤ P`. -/
theorem pagesConcat_split {α : Type} (f : Nat → List α) :
    ∀ {stop P : Nat}, stop ≤ P →
      ∃ rest, pagesConcat f P = pagesConcat f stop ++ rest := by
  intro stop P
  induction P with
  | zero =>
    intro h
    exact ⟨[], by simp [Nat.le_zero.mp h]⟩
  | succ P ih =>
    intro h
    rcases Nat.lt_or_ge stop (P + 1) with hlt | hge
    · obtain ⟨rest, hrest⟩ := ih (Nat.lt_succ_iff.mp hlt)
      exact ⟨rest ++ f (P + 1), by simp [pagesConcat, hrest]⟩
    · have : stop = P + 1 := Nat.le_antisymm h hge
      exact ⟨[], by simp [this]⟩

/-- Claim C2, counterexample.  On a one-page source holding a single record,
`limit = 0` is falsy, so `_get_results` ignores it: it walks to the last page
and returns the untruncated results, here one record rather than the empty
sequence the claim demands (`min(0, P·pageSize) = 0`). -/
theorem c2_counterexample :
    get_results (⟨1, fun _ => [7]⟩ : FindSource Nat) (some 0) = ([7], 1) ∧
    ([7] : List Nat) ≠ [] := by
  exact ⟨rfl, by decide⟩

/-- Claim C2, amended.  For `limit ≥ 1` on a source with `P ≥ 1` known pages of
`RESULTS_PER_PAGE` records each, `_get_results` returns exactly the first
`limit` records of the page-ascending concatenation — hence
`min(limit, P·pageSize)` records in page-ascending, within-page order — and
issues `min(P, ceil(limit/pageSize))` requests, never more than
`ceil(limit/pageSize)`.  With `limit = 0`, however, the limit is falsy and is
disregarded: every page up to the last is fetched and the full record list is
returned. -/
theorem c2_find_limit :
    (∀ (α : Type) (src : FindSource α) (l : Nat),
      1 ≤ src.lastPage →
      (∀ p, 1 ≤ p → p ≤ src.lastPage → (src.pageRecords p).length = RESULTS_PER_PAGE) →
      1 ≤ l →
      (get_results src (some l)).1 =
          (pagesConcat src.pageRecords src.lastPage).take l ∧
        (get_results src (some l)).1.length = min l (src.lastPage * RESULTS_PER_PAGE) ∧
        (get_results src (some l)).2 =
          min src.lastPage ((l + RESULTS_PER_PAGE - 1) / RESULTS_PER_PAGE) ∧
        (get_results src (some l)).2 ≤ (l + RESULTS_PER_PAGE - 1) / RESULTS_PER_PAGE) ∧
    (∀ (α : Type) (src : FindSource α),
      get_results src (some 0) =
        (pagesConcat src.pageRecords src.lastPage, src.lastPage)) := by
  constructor
  · intro α src l hP huni hl
    have hl0 : l ≠ 0 := Nat.one_le_iff_ne_zero.mp hl
    have hstop : page_stop src (some l) =
        min src.lastPage ((l + RESULTS_PER_PAGE - 1) / RESULTS_PER_PAGE) := by
      simp [page_stop, hl0]
    have hres1 : (get_results src (some l)).1 =
        (pagesConcat src.pageRecords (page_stop src (some l))).take l := by
      simp [get_results, hl0]
    have hres2 : (get_results src (some l)).2 = page_stop src (some l) := by
      simp [get_results]
    have hstople : page_stop src (some l) ≤ src.lastPage := by
      rw [hstop]; exact Nat.min_le_left _ _
    have hstoplen : (pagesConcat src.pageRecords (page_stop src (some l))).length =
        page_stop src (some l) * RESULTS_PER_PAGE :=
      pagesConcat_length _ _ _ fun p h1 h2 => huni p h1 (le_trans h2 hstople)
    have htake : (pagesConcat src.pageRecords (page_stop src (some l))).take l =
        (pagesConcat src.pageRecords src.lastPage).take l := by
      rcases Nat.lt_or_ge src.lastPage ((l + RESULTS_PER_PAGE - 1) / RESULTS_PER_PAGE)
        with hc | hc
      · have : page_stop src (some l) = src.lastPage := by
          rw [hstop]; exact Nat.min_eq_left (Nat.le_of_lt hc)
        rw [this]
      · have hstopeq : page_stop src (some l) =
            (l + RESULTS_PER_PAGE - 1) / RESULTS_PER_PAGE := by
          rw [hstop]; exact Nat.min_eq_right hc
        have hlle : l ≤ (pagesConcat src.pageRecords (page_stop src (some l))).length := by
          rw [hstoplen, hstopeq]
          have : l ≤ ((l + RESULTS_PER_PAGE - 1) / RESULTS_PER_PAGE) * RESULTS_PER_PAGE := by
            simp only [RESULTS_PER_PAGE]
            omega
          exact this
        obtain ⟨rest, hrest⟩ := pagesConcat_split src.pageRecords hstople
        rw [hrest, List.take_append_of_le_length hlle]
    have hfullen : (pagesConcat src.pageRecords src.lastPage).length =
        src.lastPage * RESULTS_PER_PAGE :=
      pagesConcat_length _ _ _ huni
    refine ⟨by rw [hres1, htake], ?_, by rw [hres2, hstop], ?_⟩
    · rw [hres1, htake, List.length_take, hfullen]
    · rw [hres2, hstop]; exact Nat.min_le_right _ _
  · intro α src
    simp [get_results, page_stop]

/-- Witness for the hypothesised part of `c2_find_limit`: a source with 2 pages
of 20 records each, queried with `limit = 25`, returns the first 25 of the 40
records and issues both requests (`ceil(25/20) = 2`). -/
theorem c2_find_limit_witness :
    (get_results (⟨2, fun p => (List.range RESULTS_PER_PAGE).map (fun i => 100 * p + i)⟩ :
        FindSource Nat) (some 25)).1 =
      (pagesConcat (fun p => (List.range RESULTS_PER_PAGE).map (fun i => 100 * p + i))
        2).take 25 ∧
    (get_results (⟨2, fun p => (List.range RESULTS_PER_PAGE).map (fun i => 100 * p + i)⟩ :
        FindSource Nat) (some 25)).2 =
      min 2 ((25 + RESULTS_PER_PAGE - 1) / RESULTS_PER_PAGE) := by
  have h := c2_find_limit.1 Nat
    (⟨2, fun p => (List.range RESULTS_PER_PAGE).map (fun i => 100 * p + i)⟩ : FindSource Nat)
    25 (by decide) (fun p _ _ => by simp) (by decide)
  exact ⟨h.1, h.2.2.1⟩

/-! ### Claim C6 -/

/-- Appending the next page to a page-range concatenation. -/
theorem pagesFrom_snoc {α : Type} (f : Nat → List α) :
    ∀ (n a : Nat), pagesFrom f a (n + 1) = pagesFrom f a n ++ f (a + n) := by
  intro n
  induction n with
  | zero => intro a; simp [pagesFrom]
  | succ n ih =>
    intro a
    calc pagesFrom f a (n + 2) = f a ++ pagesFrom f (a + 1) (n + 1) := rfl
      _ = f a ++ (pagesFrom f (a + 1) n ++ f (a + 1 + n)) := by rw [ih]
      _ = pagesFrom f a (n + 1) ++ f (a + (n + 1)) := by
          simp [pagesFrom, Nat.add_assoc, Nat.add_comm 1 n]

/-- The sentinel-link walk starting at page `a`: when every page before
`a + n` has a next control and page `a + n` has none, the loop visits exactly
the pages `a..a+n` and concatenates their records in order. -/
theorem get_people_walk (src : PeopleSource) :
    ∀ (n a fuel : Nat),
      (∀ p, a ≤ p → p < a + n → src.has_next p = true) →
      src.has_next (a + n) = false →
      n + 1 ≤ fuel →
      get_people src fuel a = pagesFrom src.pagePeople a (n + 1) := by
  intro n
  induction n with
  | zero =>
    intro a fuel _ hstop hfuel
    obtain ⟨fu, rfl⟩ := Nat.exists_eq_add_of_le hfuel
    simp only [Nat.add_zero] at hstop
    simp [get_people, hstop, pagesFrom, Nat.add_comm]
  | succ n ih =>
    intro a fuel hnext hstop hfuel
    obtain ⟨fu, rfl⟩ := Nat.exists_eq_add_of_le hfuel
    have ha : src.has_next a = true :=
      hnext a le_rfl (by omega)
    have hrec : get_people src (n + 1 + fu) (a + 1) =
        pagesFrom src.pagePeople (a + 1) (n + 1) := by
      apply ih (a + 1) (n + 1 + fu)
      · intro p hp1 hp2
        exact hnext p (by omega) (by omega)
      · have : a + 1 + n = a + (n + 1) := by omega
        rw [this]; exact hstop
      · omega
    have hfuelshape : n + 1 + 1 + fu = (n + 1 + fu) + 1 := by omega
    rw [hfuelshape]
    simp only [get_people, ha, if_pos]
    rw [hrec]
    rfl

/-- Claim C6, confirmed.  `_get_people` walks strictly sequentially from page
1, appending each page's records in order, and stops exactly at the first page
whose document has no `next` control; the full concatenation of every walked
page is returned.  The method accepts no result limit, so no supplied limit
can truncate this result. -/
theorem c6_sentinel_walk :
    ∀ (src : PeopleSource) (k fuel : Nat),
      1 ≤ k → k ≤ fuel →
      (∀ p, 1 ≤ p → p < k → src.has_next p = true) →
      src.has_next k = false →
      get_people src fuel 1 = pagesFrom src.pagePeople 1 k := by
  intro src k fuel hk hfuel hnext hstop
  obtain ⟨n, rfl⟩ := Nat.exists_eq_add_of_le hk
  have h1n : 1 + n = n + 1 := Nat.add_comm 1 n
  rw [h1n]
  apply get_people_walk src n 1 fuel
  · intro p hp1 hp2
    exact hnext p hp1 hp2
  · exact hstop
  · omega

/-- The three-page relationship listing used to witness `c6_sentinel_walk`. -/
def peopleThree : PeopleSource :=
  ⟨fun p => [toString p], fun p => decide (p < 3)⟩

/-- Witness for `c6_sentinel_walk`: a listing whose pages 1 and 2 carry a next
control and whose page 3 does not is walked in full. -/
theorem c6_sentinel_walk_witness :
    get_people peopleThree 5 1 = pagesFrom peopleThree.pagePeople 1 3 :=
  c6_sentinel_walk peopleThree 3 5 (by decide) (by decide)
    (fun p _ h2 => decide_eq_true h2) (by decide)

/-! ### Claim C9 -/

/-- A fallible sum aborts as soon as one of its summands raises. -/
theorem sumExcept_error_of_mem {f : Nat → Except Unit ℚ} :
    ∀ {l : List Nat} {n : Nat}, n ∈ l → f n = .error () →
      sumExcept f l = .error () := by
  intro l
  induction l with
  | nil => intro n hn; cases hn
  | cons m ms ih =>
    intro n hn hf
    rcases List.mem_cons.mp hn with h | h
    · subst h
      simp [sumExcept, hf]
    · cases hm : f m with
      | error e => cases e; simp [sumExcept, hm]
      | ok x => simp [sumExcept, hm, ih h hf]

/-- A fallible sum whose summands all succeed returns a value. -/
theorem sumExcept_ok_of_forall {f : Nat → Except Unit ℚ} :
    ∀ {l : List Nat}, (∀ n ∈ l, ∃ v, f n = .ok v) →
      ∃ s, sumExcept f l = .ok s := by
  intro l
  induction l with
  | nil => intro _; exact ⟨0, rfl⟩
  | cons m ms ih =>
    intro hall
    obtain ⟨v, hv⟩ := hall m (List.mem_cons_self m ms)
    obtain ⟨s, hs⟩ := ih fun n hn => hall n (List.mem_cons_of_mem m hn)
    exact ⟨v + s, by simp [sumExcept, hv, hs]⟩

/-- The partial histogram `{10: 1000}` of the spec's example, as the
association list the dictionary literal denotes. -/
def histPartial : List (Nat × Nat) := [(10, 1000)]

/-- The same histogram completed with explicit zero counts for every key in
`1..10`. -/
def histCompleted : List (Nat × Nat) :=
  RATING_KEYS.map (fun k => (k, if k = 10 then 1000 else 0))

/-- All ten summand lookups succeed on a histogram holding every key `1..10`. -/
theorem sumExcept_ok_completed (g : Nat → ℚ) :
    ∃ s, sumExcept (fun n =>
        match dict_getitem histCompleted n with
        | .ok v => .ok ((v : ℚ) * g n)
        | .error e => .error e) RATING_KEYS = .ok s := by
  apply sumExcept_ok_of_forall
  intro n hn
  fin_cases hn <;> exact ⟨_, rfl⟩

/-- Claim C9, counterexample.  On the proper-subset histogram `{10: 1000}`
(non-empty, with a positive count) `_get_bayesian_average` fails with a
`KeyError` on the lookup `d[1]`, while on the zero-completed histogram it
returns a value — so absent keys are not treated as count zero and the two
histograms do not agree. -/
theorem c9_counterexample :
    get_bayesian_average (fun _ _ => 0) histPartial (some (11 / 4)) 9 = .error () ∧
    get_bayesian_average (fun _ _ => 0) histCompleted (some (11 / 4)) 9 ≠ .error () := by
  constructor
  · rfl
  · obtain ⟨up, hup⟩ := sumExcept_ok_completed (fun n => ((n : ℚ) - 1) / 9)
    obtain ⟨down, hdown⟩ := sumExcept_ok_completed (fun n => (9 - ((n : ℚ) - 1)) / 9)
    have hguard : ((histCompleted.isEmpty || !histCompleted.any fun p => p.2 != 0)) = false := by
      decide
    simp [get_bayesian_average, hguard, hup, hdown]

/-- Claim C9, amended.  `_get_bayesian_average` requires every key `1..10` to
be present: on a histogram that passes the no-data guard but misses some key
in `1..10`, the computation raises `KeyError` instead of treating the absent
key as count zero; when all ten keys are present it never raises. -/
theorem c9_missing_key :
    (∀ (ppf : ℚ → ℚ → ℚ) (d : List (Nat × Nat)) (fb : Option ℚ) (a0 : ℚ) (n : Nat),
      d.isEmpty = false → (d.any fun p => p.2 != 0) = true →
      n ∈ RATING_KEYS → d.lookup n = none →
      get_bayesian_average ppf d fb a0 = .error ()) ∧
    (∀ (ppf : ℚ → ℚ → ℚ) (d : List (Nat × Nat)) (fb : Option ℚ) (a0 : ℚ),
      (∀ n ∈ RATING_KEYS, (d.lookup n).isSome) →
      get_bayesian_average ppf d fb a0 ≠ .error ()) := by
  constructor
  · intro ppf d fb a0 n hne hany hmem hlook
    have herr : sumExcept (fun n =>
        match dict_getitem d n with
        | .ok v => .ok ((v : ℚ) * (((n : ℚ) - 1) / 9))
        | .error e => .error e) RATING_KEYS = .error () := by
      apply sumExcept_error_of_mem hmem
      simp [dict_getitem, hlook]
    simp [get_bayesian_average, hne, hany, herr]
  · intro ppf d fb a0 hall
    unfold get_bayesian_average
    by_cases hguard : (d.isEmpty || !d.any fun p => p.2 != 0) = true
    · simp [hguard]
    · obtain ⟨up, hup⟩ := sumExcept_ok_of_forall
        (f := fun n =>
          match dict_getitem d n with
          | .ok v => .ok ((v : ℚ) * (((n : ℚ) - 1) / 9))
          | .error e => .error e)
        (l := RATING_KEYS)
        (by
          intro n hn
          obtain ⟨v, hv⟩ := Option.isSome_iff_exists.mp (hall n hn)
          exact ⟨(v : ℚ) * (((n : ℚ) - 1) / 9), by simp [dict_getitem, hv]⟩)
      obtain ⟨down, hdown⟩ := sumExcept_ok_of_forall
        (f := fun n =>
          match dict_getitem d n with
          | .ok v => .ok ((v : ℚ) * ((9 - ((n : ℚ) - 1)) / 9))
          | .error e => .error e)
        (l := RATING_KEYS)
        (by
          intro n hn
          obtain ⟨v, hv⟩ := Option.isSome_iff_exists.mp (hall n hn)
          exact ⟨(v : ℚ) * ((9 - ((n : ℚ) - 1)) / 9), by simp [dict_getitem, hv]⟩)
      simp [hguard, hup, hdown]

/-- Witness for `c9_missing_key` at the histograms of `c9_counterexample`. -/
theorem c9_missing_key_witness :
    get_bayesian_average (fun _ _ => 0) histPartial (some (11 / 4)) 9 = .error () ∧
    get_bayesian_average (fun _ _ => 0) histCompleted (some (11 / 4)) 9 ≠ .error () :=
  ⟨c9_missing_key.1 (fun _ _ => 0) histPartial (some (11 / 4)) 9 1 rfl rfl
      (by decide) rfl,
   c9_missing_key.2 (fun _ _ => 0) histCompleted (some (11 / 4)) 9
      (by intro n hn; fin_cases hn <;> rfl)⟩

/-! ### Claim C10 -/

/-- Dropping a prefix of whitespace from a list without whitespace is the
identity. -/
theorem dropWhile_of_no_whitespace :
    ∀ (l : List Char), (∀ c ∈ l, c.isWhitespace = false) →
      l.dropWhile Char.isWhitespace = l := by
  intro l hall
  cases l with
  | nil => rfl
  | cons c cs =>
    rw [List.dropWhile_cons]
    rw [hall c (List.mem_cons_self c cs)]
    simp

/-- Stripping a string of stars and half-stars changes nothing. -/
theorem pyStrip_of_no_whitespace (l : List Char)
    (hall : ∀ c ∈ l, c.isWhitespace = false) : pyStrip l = l := by
  unfold pyStrip
  rw [dropWhile_of_no_whitespace l hall]
  rw [dropWhile_of_no_whitespace l.reverse (fun c hc => hall c (List.mem_reverse.mp hc))]
  exact List.reverse_reverse l

/-- A star string with at least one full star is not the special `half-★`
form. -/
theorem starString_ne_half_only (a b : Nat) (ha : 1 ≤ a) :
    String.mk (List.replicate a RATING_STAR ++ List.replicate b RATING_HALF) ≠
      RATING_HALF_ONLY := by
  cases a with
  | zero => omega
  | succ a =>
    intro hcontra
    have : List.replicate (a + 1) RATING_STAR ++ List.replicate b RATING_HALF =
        RATING_HALF_ONLY.toList := congrArg String.toList hcontra
    rw [List.replicate_succ] at this
    simp [RATING_STAR, RATING_HALF_ONLY] at this

/-- Parsing a well-formed star string returns its exact half-star value. -/
theorem star_to_num_eval (a b : Nat) (ha : 1 ≤ a) (hb : b ≤ 1)
    (hub : 2 * a + b ≤ 10) :
    star_rating_to_num
        (String.mk (List.replicate a RATING_STAR ++ List.replicate b RATING_HALF)) =
      .ok ((a : ℚ) + (1 / 2) * (b : ℚ)) := by
  have hallmem : ∀ c ∈ List.replicate a RATING_STAR ++ List.replicate b RATING_HALF,
      c = RATING_STAR ∨ c = RATING_HALF := by
    intro c hc
    rcases List.mem_append.mp hc with h | h
    · exact Or.inl (List.eq_of_mem_replicate h)
    · exact Or.inr (List.eq_of_mem_replicate h)
  have hws : ∀ c ∈ List.replicate a RATING_STAR ++ List.replicate b RATING_HALF,
      c.isWhitespace = false := by
    intro c hc
    rcases hallmem c hc with rfl | rfl <;> decide
  have htl : (String.mk
      (List.replicate a RATING_STAR ++ List.replicate b RATING_HALF)).toList =
      List.replicate a RATING_STAR ++ List.replicate b RATING_HALF := rfl
  unfold star_rating_to_num
  rw [if_neg (starString_ne_half_only a b ha), htl,
    pyStrip_of_no_whitespace _ hws]
  have hany : (List.replicate a RATING_STAR ++ List.replicate b RATING_HALF).any
      (fun c => c != RATING_STAR && c != RATING_HALF) = false := by
    rw [List.any_eq_false]
    intro c hc
    rcases hallmem c hc with rfl | rfl <;> decide
  simp only [hany, Bool.false_eq_true, if_false]
  have hcount1 : (List.replicate a RATING_STAR ++ List.replicate b RATING_HALF).count
      RATING_STAR = a := by
    rw [List.count_append, List.count_replicate_self, List.count_replicate]
    simp [RATING_STAR, RATING_HALF]
  have hcount2 : (List.replicate a RATING_STAR ++ List.replicate b RATING_HALF).count
      RATING_HALF = b := by
    rw [List.count_append, List.count_replicate_self, List.count_replicate]
    simp [RATING_STAR, RATING_HALF]
  rw [hcount1, hcount2]
  have hcast : ((a : ℚ) + 1 / 2 * (b : ℚ)) * 2 = ((2 * a + b : ℕ) : ℚ) := by
    push_cast
    ring
  rw [hcast]
  rw [if_pos]
  constructor
  · exact Rat.den_natCast _
  constructor
  · rw [Rat.num_natCast]
    exact_mod_cast Nat.one_le_iff_ne_zero.mpr (by omega)
  · rw [Rat.num_natCast]
    exact_mod_cast hub

/-- Rendering a rating of at least one full star produces the star-and-half
string of its half-unit value. -/
theorem num_to_star_eval (n : Nat) (h2 : 2 ≤ n) (h10 : n ≤ 10) :
    num_to_star_rating ((n : ℚ) / 2) =
      .ok (String.mk (List.replicate (n / 2) RATING_STAR ++
        List.replicate (n % 2) RATING_HALF)) := by
  have hne : ¬((n : ℚ) / 2 = 1 / 2) := by
    intro hcontra
    have h1 : ((n : ℚ) / 2) * 2 = (1 / 2 : ℚ) * 2 := by rw [hcontra]
    rw [div_mul_cancel₀ _ (two_ne_zero), div_mul_cancel₀ _ (two_ne_zero)] at h1
    have : n = 1 := by exact_mod_cast h1
    omega
  have hmul : (n : ℚ) / 2 * 2 = (n : ℚ) := div_mul_cancel₀ _ two_ne_zero
  have hpy : pyInt ((n : ℚ) / 2 * 2) = (n : Int) := by
    rw [hmul]
    unfold pyInt
    rw [if_pos (by positivity)]
    exact Int.floor_natCast n
  unfold num_to_star_rating
  rw [if_neg hne, hpy]
  rw [if_pos ⟨by exact_mod_cast Nat.one_le_iff_ne_zero.mpr (by omega), by exact_mod_cast h10⟩]
  rw [Int.toNat_natCast]

/-- Claim C10, confirmed.  For every valid rating value `n/2` with `n` in
`1..10`, converting to the site's star string and back returns the value
exactly, with neither conversion raising; the single half star uses the
special `half-★` form, which maps back to `0.5`. -/
theorem c10_round_trip :
    (∀ n : Nat, 1 ≤ n → n ≤ 10 →
      (num_to_star_rating ((n : ℚ) / 2)).bind star_rating_to_num =
        .ok ((n : ℚ) / 2)) ∧
    num_to_star_rating (1 / 2) = .ok RATING_HALF_ONLY ∧
    star_rating_to_num RATING_HALF_ONLY = .ok (1 / 2) := by
  have hhalf1 : num_to_star_rating (1 / 2) = .ok RATING_HALF_ONLY := by
    unfold num_to_star_rating
    rw [if_pos rfl]
  have hhalf2 : star_rating_to_num RATING_HALF_ONLY = .ok (1 / 2) := by
    unfold star_rating_to_num
    rw [if_pos rfl]
  refine ⟨?_, hhalf1, hhalf2⟩
  intro n h1 h10
  rcases Nat.lt_or_ge n 2 with hn | hn
  · have : n = 1 := by omega
    subst this
    rw [Nat.cast_one, hhalf1]
    show star_rating_to_num RATING_HALF_ONLY = Except.ok (1 / 2)
    exact hhalf2
  · rw [num_to_star_eval n hn h10]
    show star_rating_to_num (String.mk (List.replicate (n / 2) RATING_STAR ++
        List.replicate (n % 2) RATING_HALF)) = Except.ok ((n : ℚ) / 2)
    rw [star_to_num_eval (n / 2) (n % 2) (by omega) (by omega) (by omega)]
    have hval : ((n / 2 : ℕ) : ℚ) + 1 / 2 * ((n % 2 : ℕ) : ℚ) = (n : ℚ) / 2 := by
      have hdm : 2 * (n / 2) + n % 2 = n := Nat.div_add_mod n 2
      have hstep : ((n / 2 : ℕ) : ℚ) + 1 / 2 * ((n % 2 : ℕ) : ℚ) =
          ((2 * (n / 2) + n % 2 : ℕ) : ℚ) / 2 := by
        push_cast
        ring
      rw [hstep, hdm]
    rw [hval]

/-- Witness for `c10_round_trip` at the rating 3.5 stars (`n = 7`). -/
theorem c10_round_trip_witness :
    (num_to_star_rating ((7 : ℚ) / 2)).bind star_rating_to_num =
      .ok ((7 : ℚ) / 2) := by
  have h := c10_round_trip.1 7 (by decide) (by decide)
  exact_mod_cast h

/-! ### Claim C5 -/

/-- Replacing a nonempty pattern in a string that starts with that pattern
removes the leading occurrence and continues on the remainder. -/
theorem pyReplace_append_pat (pat rep s : List Char) (hp : pat ≠ []) :
    pyReplace pat rep (pat ++ s) = rep ++ pyReplace pat rep s := by
  match pat, hp with
  | p :: ps, _ =>
    show pyReplace (p :: ps) rep (p :: (ps ++ s)) = rep ++ pyReplace (p :: ps) rep s
    rw [pyReplace]
    have hpre : (p :: ps).isPrefixOf (p :: (ps ++ s)) = true := by
      have : (p :: ps) <+: (p :: ps) ++ s := List.prefix_append (p :: ps) s
      simpa [ List.isPrefixOf_iff_prefix] using this
    rw [dif_pos ⟨List.cons_ne_nil p ps, hpre⟩]
    have hdrop : (p :: (ps ++ s)).drop (p :: ps).length = s := by
      have : ((p :: ps) ++ s).drop (p :: ps).length = s := List.drop_left (p :: ps) s
      simpa using this
    rw [hdrop]

/-- The `find?` of a key different from `"__csrf"` ignores the entries the
merge removed for carrying the `"__csrf"` key. -/
theorem find?_filter_ne_csrf (k : String) (hk : k ≠ "__csrf") (c : Option String) :
    ∀ d : List (String × Option String),
      (d.filter (fun q =>
          (List.find? (fun p => p.1 == q.1) [(("__csrf" : String), c)]).isNone)).find?
          (fun p => p.1 == k) =
        d.find? (fun p => p.1 == k) := by
  intro d
  induction d with
  | nil => rfl
  | cons q qs ih =>
    by_cases hqc : ("__csrf" : String) == q.1
    · have hq1 : q.1 = "__csrf" := (eq_of_beq hqc).symm
      have hpred : (List.find? (fun p => p.1 == q.1)
          [(("__csrf" : String), c)]).isNone = false := by
        rw [List.find?_cons_of_pos _ (by simp [hq1])]
        rfl
      rw [@List.filter_cons_of_neg _
        (fun q => (List.find? (fun p => p.1 == q.1) [(("__csrf" : String), c)]).isNone)
        q qs (by simp only [hpred]; decide)]
      have hqk : (q.1 == k) = false := by
        rw [hq1]
        exact beq_false_of_ne (Ne.symm hk)
      rw [List.find?_cons_of_neg _ (by simp [hqk])]
      exact ih
    · have hq1 : (("__csrf" : String) == q.1) = false := by
        cases hb : (("__csrf" : String) == q.1) with
        | false => rfl
        | true => exact absurd hb hqc
      have hpred : (List.find? (fun p => p.1 == q.1)
          [(("__csrf" : String), c)]).isNone = true := by
        rw [List.find?_cons_of_neg _ (by simp [hq1])]
        rfl
      rw [@List.filter_cons_of_pos _
        (fun q => (List.find? (fun p => p.1 == q.1) [(("__csrf" : String), c)]).isNone)
        q qs hpred]
      by_cases hqk : q.1 == k
      · rw [List.find?_cons_of_pos _ (by simpa using hqk),
          List.find?_cons_of_pos _ (by simpa using hqk)]
      · rw [List.find?_cons_of_neg _ (by simpa using hqk),
          List.find?_cons_of_neg _ (by simpa using hqk)]
        exact ih

/-- Claim C5, counterexample.  When no anti-forgery token is known (the CSRF
cookie is absent, so `cookies.get` yields `None`) and the caller passes no
data, the outgoing data is not sent unchanged: `csrf_token` is a singleton
dictionary, hence always truthy, and `_make_data` merges the `__csrf` key with
value `None` into the payload. -/
theorem c5_counterexample :
    make_data none [] = [("__csrf", none)] ∧
    ([("__csrf", none)] : List (String × Option String)) ≠ [] := by
  exact ⟨rfl, by simp⟩

/-- Claim C5, amended.  The overloaded `request` resolves the path against the
fixed base origin, stripping the origin when already present; and the
anti-forgery field `__csrf` is merged into the outgoing data on every request
— with the cookie's value when a token is known and with `None` otherwise —
while caller-supplied bindings, including a caller `__csrf`, take precedence
and every other key is passed through unchanged. -/
theorem c5_issue_behavior :
    (∀ s : List Char, resolve_url (URL_MAIN ++ s) = resolve_url s) ∧
    (∀ (c : Option String) (d : List (String × Option String)),
      dictLookup d "__csrf" = none → dictLookup (make_data c d) "__csrf" = some c) ∧
    (∀ (c : Option String) (d : List (String × Option String)) (k : String),
      k ≠ "__csrf" → dictLookup (make_data c d) k = dictLookup d k) := by
  refine ⟨?_, ?_, ?_⟩
  · intro s
    unfold resolve_url
    rw [pyReplace_append_pat URL_MAIN [] s (by decide)]
    rfl
  · intro c d hd
    have hfind : d.find? (fun p => p.1 == "__csrf") = none := by
      unfold dictLookup at hd
      exact Option.map_eq_none'.mp hd
    simp [make_data, csrf_token, pyDictOr, dictLookup, hfind]
  · intro c d k hk
    have hhead : (("__csrf" : String) == k) = false := beq_false_of_ne (Ne.symm hk)
    have hmd : make_data c d =
        (("__csrf",
          match d.find? (fun q => q.1 == "__csrf") with
          | some q => q.2
          | none => c) ::
          d.filter (fun q =>
            (List.find? (fun p => p.1 == q.1) [(("__csrf" : String), c)]).isNone)) := by
      simp [make_data, csrf_token, pyDictOr]
    rw [hmd]
    unfold dictLookup
    rw [List.find?_cons_of_neg _ (by simp [hhead])]
    rw [find?_filter_ne_csrf k hk c d]

/-- Witness for `c5_issue_behavior`: with a known token and caller data
`{"x": "1"}`, the sent data binds `__csrf` to the token and leaves `"x"`
untouched. -/
theorem c5_issue_behavior_witness :
    resolve_url (URL_MAIN ++ "film/dogs/".toList) = resolve_url "film/dogs/".toList ∧
    dictLookup (make_data (some "tok") [("x", some "1")]) "__csrf" =
      some (some "tok") ∧
    dictLookup (make_data (some "tok") [("x", some "1")]) "x" =
      dictLookup [("x", some "1")] "x" :=
  ⟨c5_issue_behavior.1 "film/dogs/".toList,
   c5_issue_behavior.2.1 (some "tok") [("x", some "1")] rfl,
   c5_issue_behavior.2.2 (some "tok") [("x", some "1")] "x" (by decide)⟩

/-! ### Claim C8 -/

/-- A pair never compares strictly below itself. -/
theorem not_lexLt_self (a : Nat × Nat) : ¬ lexLt a a := by
  unfold lexLt
  omega

/-- Being lexicographically at least is transitive. -/
theorem lexGe_trans {a b c : Nat × Nat} (hab : ¬ lexLt a b) (hbc : ¬ lexLt b c) :
    ¬ lexLt a c := by
  unfold lexLt at *
  omega

/-- The running best is at least its left input. -/
theorem pairMax_ge_left (a b : Nat × Nat) : ¬ lexLt (pairMax a b) a := by
  unfold pairMax
  split_ifs with hab <;> unfold lexLt at * <;> omega

/-- The running best is at least its right input. -/
theorem pairMax_ge_right (a b : Nat × Nat) : ¬ lexLt (pairMax a b) b := by
  unfold pairMax
  split_ifs with hab <;> unfold lexLt at * <;> omega

/-- The running best is one of its two inputs. -/
theorem pairMax_cases (a b : Nat × Nat) : pairMax a b = a ∨ pairMax a b = b := by
  unfold pairMax
  split_ifs <;> simp

/-- The fold of Python's `max` returns its initial pair or a pair of some
visited key. -/
theorem key_max_fold_cases (hst : Nat → Nat) :
    ∀ (ks : List Nat) (init : Nat × Nat),
      key_max_fold hst init ks = init ∨
        ∃ k ∈ ks, key_max_fold hst init ks = (hst k, k) := by
  intro ks
  induction ks with
  | nil => intro init; exact Or.inl rfl
  | cons k ks ih =>
    intro init
    have hstep : key_max_fold hst init (k :: ks) =
        key_max_fold hst (pairMax init (hst k, k)) ks := rfl
    rcases ih (pairMax init (hst k, k)) with heq | ⟨j, hj, heq⟩
    · rcases pairMax_cases init (hst k, k) with hpm | hpm
      · exact Or.inl (by rw [hstep, heq, hpm])
      · exact Or.inr ⟨k, List.mem_cons_self k ks, by rw [hstep, heq, hpm]⟩
    · exact Or.inr ⟨j, List.mem_cons_of_mem k hj, by rw [hstep, heq]⟩

/-- The fold of Python's `max` is lexicographically at least its initial pair
and at least every visited pair. -/
theorem key_max_fold_ge (hst : Nat → Nat) :
    ∀ (ks : List Nat) (init : Nat × Nat),
      ¬ lexLt (key_max_fold hst init ks) init ∧
        ∀ k ∈ ks, ¬ lexLt (key_max_fold hst init ks) (hst k, k) := by
  intro ks
  induction ks with
  | nil =>
    intro init
    exact ⟨not_lexLt_self init, by intro k hk; cases hk⟩
  | cons k ks ih =>
    intro init
    have hstep : key_max_fold hst init (k :: ks) =
        key_max_fold hst (pairMax init (hst k, k)) ks := rfl
    obtain ⟨h1, h2⟩ := ih (pairMax init (hst k, k))
    refine ⟨?_, ?_⟩
    · rw [hstep]
      exact lexGe_trans h1 (pairMax_ge_left init (hst k, k))
    · intro j hj
      rcases List.mem_cons.mp hj with rfl | hj'
      · rw [hstep]
        exact lexGe_trans h1 (pairMax_ge_right init (hst j, j))
      · rw [hstep]
        exact h2 j hj'

/-- The selected key of `key_max` belongs to the dictionary and its
`(value, key)` pair is lexicographically at least every pair of the
dictionary. -/
theorem key_max1_ge (hst : Nat → Nat) (l : List Nat) (hl : l ≠ []) :
    key_max1 hst l ∈ l ∧
      ∀ k ∈ l, ¬ lexLt (hst (key_max1 hst l), key_max1 hst l) (hst k, k) := by
  match l, hl with
  | k0 :: ks, _ =>
    have hdef : key_max1 hst (k0 :: ks) = (key_max_fold hst (hst k0, k0) ks).2 := rfl
    have hpair : (hst (key_max1 hst (k0 :: ks)), key_max1 hst (k0 :: ks)) =
        key_max_fold hst (hst k0, k0) ks := by
      rcases key_max_fold_cases hst ks (hst k0, k0) with heq | ⟨j, _, heq⟩ <;>
        rw [hdef, heq]
    obtain ⟨h1, h2⟩ := key_max_fold_ge hst ks (hst k0, k0)
    constructor
    · rcases key_max_fold_cases hst ks (hst k0, k0) with heq | ⟨j, hj, heq⟩
      · rw [hdef, heq]
        exact List.mem_cons_self k0 ks
      · rw [hdef, heq]
        exact List.mem_cons_of_mem k0 hj
    · intro k hk
      rw [hpair]
      rcases List.mem_cons.mp hk with rfl | hk'
      · exact h1
      · exact h2 k hk'

/-- A key whose pair strictly dominates every other pair of the dictionary is
the key `key_max` selects. -/
theorem key_max1_eq (hst : Nat → Nat) (l : List Nat) (m : Nat) (hmem : m ∈ l)
    (hmax : ∀ k ∈ l, k ≠ m → lexLt (hst k, k) (hst m, m)) :
    key_max1 hst l = m := by
  have hl : l ≠ [] := List.ne_nil_of_mem hmem
  obtain ⟨hsel_mem, hge⟩ := key_max1_ge hst l hl
  by_contra hne
  exact hge m hmem (hmax (key_max1 hst l) hsel_mem hne)

/-- Membership in the histogram key list is the numeric range `1..10`. -/
theorem mem_RATING_KEYS {k : Nat} : k ∈ RATING_KEYS ↔ 1 ≤ k ∧ k ≤ 10 := by
  simp only [RATING_KEYS, List.mem_cons, List.not_mem_nil, or_false]
  omega

/-- The ironic flag restated through the two selected keys and the
threshold. -/
theorem ironic_pair_iff (h : Nat → Nat) :
    rating_ironic h = true ↔
      ((if key_max1 h RATING_KEYS ≤ key_max2 h RATING_KEYS then
          [key_max1 h RATING_KEYS, key_max2 h RATING_KEYS]
        else [key_max2 h RATING_KEYS, key_max1 h RATING_KEYS]) = [1, 10] ∧
        3 ≤ h 1 ∧ 3 ≤ h 10) := by
  simp [rating_ironic, Bool.and_eq_true, decide_eq_true_eq, and_assoc]

/-- The selected pair is `{1, 10}` exactly when every middle score is strictly
less frequent than score 1 and at most as frequent as score 10. -/
theorem ironic_pair_characterization (h : Nat → Nat) :
    (if key_max1 h RATING_KEYS ≤ key_max2 h RATING_KEYS then
        [key_max1 h RATING_KEYS, key_max2 h RATING_KEYS]
      else [key_max2 h RATING_KEYS, key_max1 h RATING_KEYS]) = [1, 10] ↔
      (∀ k, 2 ≤ k → k ≤ 9 → h k < h 1 ∧ h k ≤ h 10) := by
  constructor
  · intro hsel
    by_cases hle : key_max1 h RATING_KEYS ≤ key_max2 h RATING_KEYS
    · rw [if_pos hle] at hsel
      have hm1 : key_max1 h RATING_KEYS = 1 := (List.cons.injEq _ _ _ _).mp hsel |>.1
      have hm2 : key_max2 h RATING_KEYS = 10 := by
        have := ((List.cons.injEq _ _ _ _).mp hsel).2
        exact ((List.cons.injEq _ _ _ _).mp this).1
      obtain ⟨_, hge1⟩ := key_max1_ge h RATING_KEYS (by decide)
      rw [hm1] at hge1
      have herase : RATING_KEYS.erase 1 = [2, 3, 4, 5, 6, 7, 8, 9, 10] := by decide
      have hm2' : key_max1 h [2, 3, 4, 5, 6, 7, 8, 9, 10] = 10 := by
        have : key_max2 h RATING_KEYS =
            key_max1 h (RATING_KEYS.erase (key_max1 h RATING_KEYS)) := rfl
        rw [this, hm1, herase] at hm2
        exact hm2
      obtain ⟨_, hge2⟩ := key_max1_ge h [2, 3, 4, 5, 6, 7, 8, 9, 10] (by decide)
      rw [hm2'] at hge2
      intro k hk2 hk9
      have hmem1 : k ∈ RATING_KEYS := mem_RATING_KEYS.mpr ⟨by omega, by omega⟩
      have hmem2 : k ∈ [2, 3, 4, 5, 6, 7, 8, 9, 10] := by
        simp only [List.mem_cons, List.not_mem_nil, or_false]
        omega
      have hb1 := hge1 k hmem1
      have hb2 := hge2 k hmem2
      unfold lexLt at hb1 hb2
      constructor <;> omega
    · rw [if_neg hle] at hsel
      have hm2 : key_max2 h RATING_KEYS = 1 := (List.cons.injEq _ _ _ _).mp hsel |>.1
      have hm1 : key_max1 h RATING_KEYS = 10 := by
        have := ((List.cons.injEq _ _ _ _).mp hsel).2
        exact ((List.cons.injEq _ _ _ _).mp this).1
      obtain ⟨_, hge1⟩ := key_max1_ge h RATING_KEYS (by decide)
      rw [hm1] at hge1
      have herase : RATING_KEYS.erase 10 = [1, 2, 3, 4, 5, 6, 7, 8, 9] := by decide
      have hm2' : key_max1 h [1, 2, 3, 4, 5, 6, 7, 8, 9] = 1 := by
        have : key_max2 h RATING_KEYS =
            key_max1 h (RATING_KEYS.erase (key_max1 h RATING_KEYS)) := rfl
        rw [this, hm1, herase] at hm2
        exact hm2
      obtain ⟨_, hge2⟩ := key_max1_ge h [1, 2, 3, 4, 5, 6, 7, 8, 9] (by decide)
      rw [hm2'] at hge2
      intro k hk2 hk9
      have hmem1 : k ∈ RATING_KEYS := mem_RATING_KEYS.mpr ⟨by omega, by omega⟩
      have hmem2 : k ∈ [1, 2, 3, 4, 5, 6, 7, 8, 9] := by
        simp only [List.mem_cons, List.not_mem_nil, or_false]
        omega
      have hb1 := hge1 k hmem1
      have hb2 := hge2 k hmem2
      unfold lexLt at hb1 hb2
      constructor <;> omega
  · intro hCD
    by_cases hcmp : h 1 ≤ h 10
    · have hm1 : key_max1 h RATING_KEYS = 10 := by
        apply key_max1_eq h RATING_KEYS 10 (mem_RATING_KEYS.mpr ⟨by omega, le_rfl⟩)
        intro k hk hkne
        obtain ⟨hk1, hk10⟩ := mem_RATING_KEYS.mp hk
        unfold lexLt
        rcases Nat.eq_or_lt_of_le hk1 with rfl | h1
        · omega
        · obtain ⟨hc, hd⟩ := hCD k (by omega) (by omega)
          omega
      have herase : RATING_KEYS.erase 10 = [1, 2, 3, 4, 5, 6, 7, 8, 9] := by decide
      have hm2 : key_max2 h RATING_KEYS = 1 := by
        show key_max1 h (RATING_KEYS.erase (key_max1 h RATING_KEYS)) = 1
        rw [hm1, herase]
        apply key_max1_eq h _ 1 (by simp)
        intro k hk hkne
        have hk' : 2 ≤ k ∧ k ≤ 9 := by
          simp only [List.mem_cons, List.not_mem_nil, or_false] at hk
          omega
        obtain ⟨hc, _⟩ := hCD k hk'.1 hk'.2
        unfold lexLt
        omega
      rw [hm1, hm2]
      decide
    · have hm1 : key_max1 h RATING_KEYS = 1 := by
        apply key_max1_eq h RATING_KEYS 1 (mem_RATING_KEYS.mpr ⟨le_rfl, by omega⟩)
        intro k hk hkne
        obtain ⟨hk1, hk10⟩ := mem_RATING_KEYS.mp hk
        unfold lexLt
        rcases Nat.eq_or_lt_of_le hk10 with rfl | h10
        · omega
        · obtain ⟨hc, hd⟩ := hCD k (by omega) (by omega)
          omega
      have herase : RATING_KEYS.erase 1 = [2, 3, 4, 5, 6, 7, 8, 9, 10] := by decide
      have hm2 : key_max2 h RATING_KEYS = 10 := by
        show key_max1 h (RATING_KEYS.erase (key_max1 h RATING_KEYS)) = 10
        rw [hm1, herase]
        apply key_max1_eq h _ 10 (by simp)
        intro k hk hkne
        have hk' : 2 ≤ k ∧ k ≤ 9 := by
          simp only [List.mem_cons, List.not_mem_nil, or_false] at hk
          omega
        obtain ⟨_, hd⟩ := hCD k hk'.1 hk'.2
        unfold lexLt
        omega
      rw [hm1, hm2]
      decide

/-- The histogram `{1:5, 10:5, 5:1}` of the spec's first example, completed
with zero counts. -/
def histIronic : Nat → Nat :=
  fun k => if k = 1 then 5 else if k = 10 then 5 else if k = 5 then 1 else 0

/-- The histogram `{1:2, 10:5, 5:1}` of the spec's second example, completed
with zero counts. -/
def histNotIronic : Nat → Nat :=
  fun k => if k = 1 then 2 else if k = 10 then 5 else if k = 5 then 1 else 0

/-- Claim C8, confirmed.  `rating_ironic` holds exactly when the two most
frequent scores under `key_max`'s selection (the lexicographic maximum of
`(count, score)` pairs, so a tie in counts is broken toward the larger score)
are the pair `{1, 10}` and both extremes have at least 3 ratings — spelled
out: both extreme counts are at least 3, every middle score is strictly less
frequent than score 1 and at most as frequent as score 10.  The two spec
examples evaluate as stated. -/
theorem c8_ironic_characterization :
    (∀ h : Nat → Nat,
      rating_ironic h = true ↔
        (3 ≤ h 1 ∧ 3 ≤ h 10 ∧
          ∀ k, 2 ≤ k → k ≤ 9 → h k < h 1 ∧ h k ≤ h 10)) ∧
    rating_ironic histIronic = true ∧
    rating_ironic histNotIronic = false := by
  refine ⟨?_, by decide, by decide⟩
  intro h
  rw [ironic_pair_iff, ironic_pair_characterization]
  constructor
  · rintro ⟨hcd, h1, h10⟩
    exact ⟨h1, h10, hcd⟩
  · rintro ⟨h1, h10, hcd⟩
    exact ⟨hcd, h1, h10⟩

end Lunaboxd
